import Mathlib

/-!
# Verification of the risk-management reconciliation loop (`armour.py`)

Shallow embedding of the single source file of the repository: an automated
risk-management loop that polls open positions and open orders of a
derivatives exchange, computes protective stop-loss / take-profit targets per
position, and reconciles the resting orders against those targets.

Modelling choices:

* Python floats are modelled as exact rationals (`ℚ`); `round` is modelled by
  `pyRound` (round-half-to-even, Python's semantics), and the
  format-to-`n`-decimals-then-reparse step by `roundToDecimals`.
* Python dicts fetched from the API are modelled as structures with
  `Option`-valued fields: a `none` field models a missing key (or a `None`
  value).  A subscript access `d['k']` on a missing key raises, which is
  modelled in the `Except Unit` monad; `d.get('k', default)` is `Option.getD`.
* `str.lower` / `str.upper` are modelled by `sLower` / `sUpper`, the
  character-wise ASCII case maps (Lean's own `String.toLower` is the same map
  but is not kernel-reducible, which concrete witnesses need).
* The side effects of `place_order_safe` (which never raises: it catches all
  exceptions internally) are modelled as an emitted list of `Call` values,
  each carrying the action kind (`"CREATE"`, `"EDIT"`, `"CANCEL"`) and the
  exact payload dict built by the source.
* The global `INSTRUMENT_SPECS` dict is passed explicitly as an association
  list, written once at startup and read-only afterwards.
-/

namespace Armour

/-- Python `str.lower()` for the ASCII strings handled by the script. -/
def sLower (s : String) : String := String.mk (s.data.map Char.toLower)

/-- Python `str.upper()` for the ASCII strings handled by the script. -/
def sUpper (s : String) : String := String.mk (s.data.map Char.toUpper)

/-- Constant `STOP_LOSS_PCT = 0.015` (armour.py line 12). -/
def STOP_LOSS_PCT : ℚ := 0.015

/-- Constant `TAKE_PROFIT_PCT = 0.05` (armour.py line 13). -/
def TAKE_PROFIT_PCT : ℚ := 0.05

/-- Constant `EXCLUDED_SYMBOLS = ["PF_XBTUSD"]` (armour.py line 16). -/
def EXCLUDED_SYMBOLS : List String := ["PF_XBTUSD"]

/-- One entry of the `INSTRUMENT_SPECS` registry (armour.py lines 57-61). -/
structure InstrumentSpec where
  tick_size : ℚ
  price_decimals : ℕ
  qty_precision : ℕ
deriving DecidableEq, Repr

/-- The `INSTRUMENT_SPECS` dict, as an association list keyed by symbol. -/
def lookupSpec (specs : List (String × InstrumentSpec)) (symbol : String) :
    Option InstrumentSpec :=
  (specs.find? (fun p => p.1 == symbol)).map (fun p => p.2)

/-- Python's built-in `round`: round half to even. -/
def pyRound (q : ℚ) : ℤ :=
  let f := ⌊q⌋
  let frac := q - f
  if frac < 1/2 then f
  else if 1/2 < frac then f + 1
  else if f % 2 = 0 then f else f + 1

/-- The step `float(f"{x:.{n}f}")`: render to `n` fractional digits and
reparse.  On
exact rationals this is rounding to `n` decimal places (half to even). -/
def roundToDecimals (x : ℚ) (n : ℕ) : ℚ :=
  pyRound (x * 10 ^ n) / 10 ^ n

/-- Body of `format_price` once the spec is found (armour.py lines 74-81):
snap to the nearest tick, then round to `price_decimals` fractional digits. -/
def fmtPrice (s : InstrumentSpec) (price : ℚ) : ℚ :=
  roundToDecimals ((pyRound (price / s.tick_size) : ℚ) * s.tick_size) s.price_decimals

/-- Body of `format_qty` once the spec is found (armour.py lines 87-90). -/
def fmtQty (s : InstrumentSpec) (qty : ℚ) : ℚ :=
  roundToDecimals qty s.qty_precision

/-- The function `format_price(price, symbol)` (armour.py lines 70-81).
A `none` result models the
`(None, False)` branch taken when the symbol has no spec. -/
def format_price (specs : List (String × InstrumentSpec)) (price : ℚ)
    (symbol : String) : Option ℚ :=
  (lookupSpec specs symbol).map (fun s => fmtPrice s price)

/-- The function `format_qty(qty, symbol)` (armour.py lines 83-90). -/
def format_qty (specs : List (String × InstrumentSpec)) (qty : ℚ)
    (symbol : String) : Option ℚ :=
  (lookupSpec specs symbol).map (fun s => fmtQty s qty)

/-- The value passed to `get_decimals_from_tick`: either a value whose
`str()` parses as the decimal `mantissa × 10 ^ exp` (as every float or
numeric JSON field does), or a value on which `Decimal(str(tick_val))`
raises. -/
inductive TickVal where
  | num (mantissa : ℤ) (exp : ℤ)
  | invalid
deriving DecidableEq, Repr

/-- Strip factors of 10 from the mantissa, bumping the exponent: the
exponent adjustment performed by `Decimal.normalize()`.  The fuel is an upper
bound on the number of strips; `natAbs` of the mantissa always suffices. -/
def stripZeros : ℕ → ℤ → ℤ → ℤ × ℤ
  | 0, m, e => (m, e)
  | fuel + 1, m, e => if m % 10 = 0 then stripZeros fuel (m / 10) (e + 1) else (m, e)

/-- The exponent of `Decimal(...).normalize()` of `mantissa × 10 ^ exp`
(`normalize` maps every zero to exponent 0). -/
def normalizeExp (m e : ℤ) : ℤ :=
  if m = 0 then 0 else (stripZeros m.natAbs m e).2

/-- The function `get_decimals_from_tick` (armour.py lines 29-35): the number of
significant fractional digits of the tick size's canonical decimal
representation; 2 on any parsing error. -/
def get_decimals_from_tick : TickVal → ℕ
  | TickVal.num m e =>
    let e2 := normalizeExp m e
    if e2 < 0 then e2.natAbs else 0
  | TickVal.invalid => 2

/-- One entry of the `openPositions` list.  `none` fields model missing
keys; a present field models `float(...)` of a well-formed numeric value. -/
structure Position where
  symbol : Option String
  side : Option String
  price : Option ℚ
  size : Option ℚ
deriving DecidableEq, Repr

/-- One entry of the `openOrders` list. -/
structure Order where
  symbol : Option String
  side : Option String
  orderType : Option String
  order_id : Option String
  orderId : Option String
  stopPrice : Option ℚ
  limitPrice : Option ℚ
  size : Option ℚ
deriving DecidableEq, Repr

/-- The payload dict handed to `place_order_safe`.  A `none` field is a key
that the source does not put into the dict.  `order_id` is doubly optional:
the source stores `order.get('order_id') or order.get('orderId')` there,
which may itself be `None`. -/
structure Payload where
  orderType : Option String := none
  symbol : Option String := none
  side : Option String := none
  size : Option ℚ := none
  stopPrice : Option ℚ := none
  limitPrice : Option ℚ := none
  reduceOnly : Option Bool := none
  triggerSignal : Option String := none
  order_id : Option (Option String) := none
deriving DecidableEq, Repr

/-- One invocation of `place_order_safe(api, payload, action_type)`.  The
action is `"CREATE"`, `"EDIT"` or `"CANCEL"`. -/
structure Call where
  action : String
  payload : Payload
deriving DecidableEq, Repr

/-- The fallback `order.get('order_id') or order.get('orderId')` (armour.py lines 207,
212, 245, 274): Python's `or` falls through on a falsy (missing or empty)
first operand. -/
def getId (o : Order) : Option String :=
  match o.order_id with
  | some s => if s = "" then o.orderId else some s
  | none => o.orderId

/-- The risk-target calculation (armour.py lines 161-168), applied to the
lowercased side.  Any side other than long/buy takes the `else` branch. -/
def compute_targets (side : String) (entry_price : ℚ) : String × ℚ × ℚ :=
  if sLower side = "long" ∨ sLower side = "buy" then
    ("sell", entry_price * (1 - STOP_LOSS_PCT), entry_price * (1 + TAKE_PROFIT_PCT))
  else
    ("buy", entry_price * (1 + STOP_LOSS_PCT), entry_price * (1 - TAKE_PROFIT_PCT))

/-- The test `symbol.upper() in [x.upper() for x in EXCLUDED_SYMBOLS]`
(armour.py line 147). -/
def isExcluded (symbol : String) : Bool :=
  (EXCLUDED_SYMBOLS.map sUpper).contains (sUpper symbol)

/-- The `position_orders` list comprehension (armour.py lines 184-187):
`o['symbol'] == symbol and o['side'].lower() == action_side`.  A missing
`symbol` key raises; a missing `side` key raises only when the symbol
matched (Python's `and` short-circuits). -/
def filterPositionOrders (symbol action_side : String) :
    List Order → Except Unit (List Order)
  | [] => Except.ok []
  | o :: rest =>
    match o.symbol with
    | none => Except.error ()
    | some osym =>
      if osym = symbol then
        match o.side with
        | none => Except.error ()
        | some oside =>
          match filterPositionOrders symbol action_side rest with
          | Except.error e => Except.error e
          | Except.ok l =>
            Except.ok (if sLower oside = action_side then o :: l else l)
      else filterPositionOrders symbol action_side rest

/-- The bucket classification loop (armour.py lines 192-198): stop orders
(`stp`/`stop`) and limit orders (`lmt`/`limit`), in encounter order; any
other type lands in neither bucket.  A missing `orderType` key raises. -/
def classifyOrders : List Order → Except Unit (List Order × List Order)
  | [] => Except.ok ([], [])
  | o :: rest =>
    match o.orderType with
    | none => Except.error ()
    | some t =>
      match classifyOrders rest with
      | Except.error e => Except.error e
      | Except.ok (stps, lmts) =>
        if sLower t = "stp" ∨ sLower t = "stop" then Except.ok (o :: stps, lmts)
        else if sLower t = "lmt" ∨ sLower t = "limit" then Except.ok (stps, o :: lmts)
        else Except.ok (stps, lmts)

/-- The list `orders_to_keep_ids` (armour.py lines 206-208). -/
def keepIds (chosen_stp chosen_lmt : Option Order) : List (Option String) :=
  (match chosen_stp with
   | some o => [getId o]
   | none => []) ++
  (match chosen_lmt with
   | some o => [getId o]
   | none => [])

/-- The cancel payload of armour.py lines 216-219. -/
def cancelCall (symbol : String) (o : Order) : Call :=
  { action := "CANCEL", payload := { order_id := some (getId o), symbol := some symbol } }

/-- The cleanup loop (armour.py lines 211-219): every `position_orders`
entry whose id is not in the keep list gets a cancel call. -/
def cancelCalls (symbol : String) (keep : List (Option String))
    (position_orders : List Order) : List Call :=
  position_orders.filterMap (fun o =>
    if getId o ∈ keep then none else some (cancelCall symbol o))

/-- The stop-loss arm (armour.py lines 222-249): create when no chosen stop
order exists, else amend when the price moved by more than two ticks or the
size differs; missing `stopPrice`/`size` keys default to 0 via `.get`. -/
def stopArmCalls (tick : ℚ) (symbol action_side : String) (size target_stp : ℚ)
    (chosen_stp : Option Order) : List Call :=
  match chosen_stp with
  | none =>
    [{ action := "CREATE",
       payload := { orderType := some "stp", symbol := some symbol,
                    side := some action_side, size := some size,
                    stopPrice := some target_stp, reduceOnly := some true,
                    triggerSignal := some "mark" } }]
  | some o =>
    let curr_stp := o.stopPrice.getD 0
    let curr_size := o.size.getD 0
    let price_diff := |curr_stp - target_stp|
    let size_diff := |curr_size - size|
    if price_diff > tick * 2 ∨ size_diff > 0 then
      [{ action := "EDIT",
         payload := { order_id := some (getId o), symbol := some symbol,
                      stopPrice := some target_stp, size := some size } }]
    else []

/-- The take-profit arm (armour.py lines 252-278), the limit-price mirror of
the stop-loss arm. -/
def limitArmCalls (tick : ℚ) (symbol action_side : String) (size target_lmt : ℚ)
    (chosen_lmt : Option Order) : List Call :=
  match chosen_lmt with
  | none =>
    [{ action := "CREATE",
       payload := { orderType := some "lmt", symbol := some symbol,
                    side := some action_side, size := some size,
                    limitPrice := some target_lmt, reduceOnly := some true } }]
  | some o =>
    let curr_lmt := o.limitPrice.getD 0
    let curr_size := o.size.getD 0
    let price_diff := |curr_lmt - target_lmt|
    let size_diff := |curr_size - size|
    if price_diff > tick * 2 ∨ size_diff > 0 then
      [{ action := "EDIT",
         payload := { order_id := some (getId o), symbol := some symbol,
                      limitPrice := some target_lmt, size := some size } }]
    else []

/-- The body of the per-position loop (armour.py lines 143-278): exclusion
and missing-spec skips, target computation, formatting, order matching and
classification, duplicate cleanup, and the two protective arms.  The result
is the list of order-mutation calls; `Except.error` models an uncaught
exception escaping the position's processing (every raising access of the
body precedes the first mutation call). -/
def processPosition (specs : List (String × InstrumentSpec))
    (all_open_orders : List Order) (pos : Position) : Except Unit (List Call) :=
  match pos.symbol with
  | none => Except.error ()
  | some symbol =>
    if isExcluded symbol then Except.ok []
    else
      match lookupSpec specs symbol with
      | none => Except.ok []
      | some spec =>
        match pos.side, pos.price, pos.size with
        | some side0, some entry_price, some raw_size =>
          let tgt := compute_targets side0 entry_price
          let action_side := tgt.1
          match format_qty specs raw_size symbol,
              format_price specs tgt.2.1 symbol,
              format_price specs tgt.2.2 symbol with
          | some size, some target_stp, some target_lmt =>
            match filterPositionOrders symbol action_side all_open_orders with
            | Except.error e => Except.error e
            | Except.ok position_orders =>
              match classifyOrders position_orders with
              | Except.error e => Except.error e
              | Except.ok (existing_stp_orders, existing_lmt_orders) =>
                let chosen_stp := existing_stp_orders.head?
                let chosen_lmt := existing_lmt_orders.head?
                let keep := keepIds chosen_stp chosen_lmt
                Except.ok
                  (cancelCalls symbol keep position_orders ++
                   stopArmCalls spec.tick_size symbol action_side size target_stp chosen_stp ++
                   limitArmCalls spec.tick_size symbol action_side size target_lmt chosen_lmt)
          | _, _, _ => Except.ok []
        | _, _, _ => Except.error ()

/-- The calls of an `Except`-wrapped position result (an aborted position
has issued no calls, since every raising access precedes the first call). -/
def okCalls : Except Unit (List Call) → List Call
  | Except.ok l => l
  | Except.error _ => []

/-- Whether the position's processing raised. -/
def isOk : Except Unit (List Call) → Bool
  | Except.ok _ => true
  | Except.error _ => false

/-- The `for pos in positions` loop inside the cycle-level `try` (armour.py
lines 143-281): positions are processed in order; an uncaught exception is
caught by the cycle-level handler, which logs and ends the cycle, so the
remaining positions are not processed. -/
def runCycle (specs : List (String × InstrumentSpec))
    (all_open_orders : List Order) : List Position → List Call
  | [] => []
  | p :: rest =>
    match processPosition specs all_open_orders p with
    | Except.ok calls => calls ++ runCycle specs all_open_orders rest
    | Except.error _ => []

/-- The data fetched at the top of a cycle; a `none` field models a response
missing the expected list key (armour.py lines 125-131 return early then). -/
structure ExchangeState where
  openPositions : Option (List Position)
  openOrders : Option (List Order)
deriving Repr

/-- The cycle `monitor_and_manage_risk` (armour.py lines 115-281), given the fetched
state: validation of the two response shapes, then the per-position loop. -/
def monitor_and_manage_risk (specs : List (String × InstrumentSpec))
    (st : ExchangeState) : List Call :=
  match st.openPositions, st.openOrders with
  | some positions, some all_open_orders => runCycle specs all_open_orders positions
  | _, _ => []

/-- Modelled from the spec: the order-matching predicate as §4.4 step 3
words it, with BOTH comparisons case-insensitive.  For the refinement
comparison of claim C5 against the source's filter. -/
def specOrderMatches (symbol action_side : String) (o : Order) : Bool :=
  (o.symbol.map sLower == some (sLower symbol)) &&
  (o.side.map sLower == some (sLower action_side))

/-! ### Concrete fixtures used by witnesses and counterexamples -/

/-- A spec with tick 0.5, one price decimal, integer quantities. -/
def spec1 : InstrumentSpec :=
  { tick_size := 1/2, price_decimals := 1, qty_precision := 0 }

/-- A registry with one instrument. -/
def specsX : List (String × InstrumentSpec) := [("PF_ETHUSD", spec1)]

/-- A long position: entry 100, size 1. -/
def posX : Position :=
  { symbol := some "PF_ETHUSD", side := some "long", price := some 100, size := some 1 }

/-- A position whose `side` key is missing: `pos['side']` raises. -/
def pBad : Position :=
  { symbol := some "PF_ETHUSD", side := none, price := some 100, size := some 1 }

/-- A resting stop order already exactly at the formatted stop target of
`posX` (98.5), with the position's size. -/
def oStpX : Order :=
  { symbol := some "PF_ETHUSD", side := some "sell", orderType := some "stp",
    order_id := some "a", orderId := none, stopPrice := some (197/2),
    limitPrice := none, size := some 1 }

/-- A resting limit order already exactly at the formatted limit target of
`posX` (105), with the position's size. -/
def oLmtX : Order :=
  { symbol := some "PF_ETHUSD", side := some "sell", orderType := some "lmt",
    order_id := some "b", orderId := none, stopPrice := none,
    limitPrice := some 105, size := some 1 }

/-- A second resting limit order, with a distinct id. -/
def oLmtY : Order :=
  { symbol := some "PF_ETHUSD", side := some "sell", orderType := some "lmt",
    order_id := some "d", orderId := none, stopPrice := none,
    limitPrice := some 104, size := some 1 }

/-- A matching order whose type is in neither protective bucket. -/
def oIoc : Order :=
  { symbol := some "PF_ETHUSD", side := some "sell", orderType := some "ioc",
    order_id := some "c", orderId := none, stopPrice := none,
    limitPrice := none, size := none }

/-- An order that matches `posX` case-insensitively but not under the
source's exact symbol comparison. -/
def oCase : Order :=
  { symbol := some "pf_ethusd", side := some "SELL", orderType := some "lmt",
    order_id := some "z", orderId := none, stopPrice := none,
    limitPrice := some 105, size := some 1 }

/-- An order in the stop bucket holding an order whose `stopPrice` key is
absent and whose recorded size is the target size. -/
def oW : Order :=
  { symbol := some "S", side := some "sell", orderType := some "stp",
    order_id := some "w", orderId := none, stopPrice := some 0,
    limitPrice := none, size := some 1 }

/-- The amend call the stop arm issues for `oW` against target price 10. -/
def editW : Call :=
  { action := "EDIT",
    payload := { order_id := some (some "w"), symbol := some "S",
                 stopPrice := some 10, size := some 1 } }

/-- A chosen stop order whose `stopPrice` key is missing. -/
def oM : Order :=
  { symbol := some "S", side := some "sell", orderType := some "stp",
    order_id := some "m", orderId := none, stopPrice := none,
    limitPrice := none, size := some 1 }

/-! ### Helper lemmas -/

theorem stopArm_some_eq (tick : ℚ) (symbol action_side : String)
    (size target_stp : ℚ) (o : Order) :
    stopArmCalls tick symbol action_side size target_stp (some o) =
      if |o.stopPrice.getD 0 - target_stp| > tick * 2 ∨ |o.size.getD 0 - size| > 0 then
        [{ action := "EDIT",
           payload := { order_id := some (getId o), symbol := some symbol,
                        stopPrice := some target_stp, size := some size } }]
      else [] := rfl

theorem limitArm_some_eq (tick : ℚ) (symbol action_side : String)
    (size target_lmt : ℚ) (o : Order) :
    limitArmCalls tick symbol action_side size target_lmt (some o) =
      if |o.limitPrice.getD 0 - target_lmt| > tick * 2 ∨ |o.size.getD 0 - size| > 0 then
        [{ action := "EDIT",
           payload := { order_id := some (getId o), symbol := some symbol,
                        limitPrice := some target_lmt, size := some size } }]
      else [] := rfl

theorem stopArm_edit_iff (tick : ℚ) (symbol action_side : String)
    (size target_stp : ℚ) (o : Order) :
    (∃ c ∈ stopArmCalls tick symbol action_side size target_stp (some o),
        c.action = "EDIT") ↔
      (|o.stopPrice.getD 0 - target_stp| > tick * 2 ∨ o.size.getD 0 ≠ size) := by
  rw [stopArm_some_eq]
  by_cases h : |o.stopPrice.getD 0 - target_stp| > tick * 2 ∨ |o.size.getD 0 - size| > 0
  · rw [if_pos h]
    constructor
    · intro _
      rcases h with h | h
      · exact Or.inl h
      · exact Or.inr (sub_ne_zero.mp (abs_pos.mp h))
    · intro _
      exact ⟨_, List.mem_singleton_self _, rfl⟩
  · rw [if_neg h]
    push_neg at h
    constructor
    · rintro ⟨c, hc, -⟩
      exact absurd hc (List.not_mem_nil c)
    · rintro (hp | hs)
      · exact absurd hp (not_lt.mpr h.1)
      · exact absurd (abs_pos.mpr (sub_ne_zero.mpr hs)) (not_lt.mpr h.2)

theorem limitArm_edit_iff (tick : ℚ) (symbol action_side : String)
    (size target_lmt : ℚ) (o : Order) :
    (∃ c ∈ limitArmCalls tick symbol action_side size target_lmt (some o),
        c.action = "EDIT") ↔
      (|o.limitPrice.getD 0 - target_lmt| > tick * 2 ∨ o.size.getD 0 ≠ size) := by
  rw [limitArm_some_eq]
  by_cases h : |o.limitPrice.getD 0 - target_lmt| > tick * 2 ∨ |o.size.getD 0 - size| > 0
  · rw [if_pos h]
    constructor
    · intro _
      rcases h with h | h
      · exact Or.inl h
      · exact Or.inr (sub_ne_zero.mp (abs_pos.mp h))
    · intro _
      exact ⟨_, List.mem_singleton_self _, rfl⟩
  · rw [if_neg h]
    push_neg at h
    constructor
    · rintro ⟨c, hc, -⟩
      exact absurd hc (List.not_mem_nil c)
    · rintro (hp | hs)
      · exact absurd hp (not_lt.mpr h.1)
      · exact absurd (abs_pos.mpr (sub_ne_zero.mpr hs)) (not_lt.mpr h.2)

theorem stopArm_edit_payload (tick : ℚ) (symbol action_side : String)
    (size target_stp : ℚ) (chosen : Option Order) (c : Call)
    (hc : c ∈ stopArmCalls tick symbol action_side size target_stp chosen)
    (he : c.action = "EDIT") :
    (∃ oid, c.payload.order_id = some oid) ∧
    c.payload.stopPrice = some target_stp ∧ c.payload.size = some size := by
  cases chosen with
  | none =>
    simp only [stopArmCalls, List.mem_singleton] at hc
    rw [hc] at he
    dsimp only at he
    exact absurd he (by decide)
  | some o =>
    rw [stopArm_some_eq] at hc
    by_cases h : |o.stopPrice.getD 0 - target_stp| > tick * 2 ∨ |o.size.getD 0 - size| > 0
    · rw [if_pos h, List.mem_singleton] at hc
      subst hc
      exact ⟨⟨getId o, rfl⟩, rfl, rfl⟩
    · rw [if_neg h] at hc
      exact absurd hc (List.not_mem_nil c)

theorem limitArm_edit_payload (tick : ℚ) (symbol action_side : String)
    (size target_lmt : ℚ) (chosen : Option Order) (c : Call)
    (hc : c ∈ limitArmCalls tick symbol action_side size target_lmt chosen)
    (he : c.action = "EDIT") :
    (∃ oid, c.payload.order_id = some oid) ∧
    c.payload.limitPrice = some target_lmt ∧ c.payload.size = some size := by
  cases chosen with
  | none =>
    simp only [limitArmCalls, List.mem_singleton] at hc
    rw [hc] at he
    dsimp only at he
    exact absurd he (by decide)
  | some o =>
    rw [limitArm_some_eq] at hc
    by_cases h : |o.limitPrice.getD 0 - target_lmt| > tick * 2 ∨ |o.size.getD 0 - size| > 0
    · rw [if_pos h, List.mem_singleton] at hc
      subst hc
      exact ⟨⟨getId o, rfl⟩, rfl, rfl⟩
    · rw [if_neg h] at hc
      exact absurd hc (List.not_mem_nil c)

theorem mem_cancelCalls_action (symbol : String) (keep : List (Option String))
    (po : List Order) (c : Call) (hc : c ∈ cancelCalls symbol keep po) :
    c.action = "CANCEL" := by
  unfold cancelCalls at hc
  rw [List.mem_filterMap] at hc
  obtain ⟨o, -, ho⟩ := hc
  by_cases h : getId o ∈ keep
  · rw [if_pos h] at ho
    cases ho
  · rw [if_neg h] at ho
    have hoc : cancelCall symbol o = c := by injection ho
    rw [← hoc]
    rfl

/-- Every call that escapes `processPosition` comes from the cleanup loop,
the stop arm, or the limit arm. -/
theorem mem_processPosition_cases (specs : List (String × InstrumentSpec))
    (aoo : List Order) (pos : Position) (c : Call) (P : Call → Prop)
    (hcan : ∀ symbol keep po, c ∈ cancelCalls symbol keep po → P c)
    (hstp : ∀ tick symbol a sz tg ch, c ∈ stopArmCalls tick symbol a sz tg ch → P c)
    (hlmt : ∀ tick symbol a sz tg ch, c ∈ limitArmCalls tick symbol a sz tg ch → P c)
    (hc : c ∈ okCalls (processPosition specs aoo pos)) : P c := by
  obtain ⟨psym, pside, pprice, psize⟩ := pos
  unfold processPosition at hc
  cases psym with
  | none => simp [okCalls] at hc
  | some symbol =>
    dsimp only at hc
    by_cases hexc : isExcluded symbol
    · rw [if_pos hexc] at hc
      simp [okCalls] at hc
    · rw [if_neg hexc] at hc
      cases hlk : lookupSpec specs symbol with
      | none =>
        rw [hlk] at hc
        simp [okCalls] at hc
      | some spec =>
        rw [hlk] at hc
        cases pside with
        | none => simp [okCalls] at hc
        | some side0 =>
          cases pprice with
          | none => simp [okCalls] at hc
          | some entry =>
            cases psize with
            | none => simp [okCalls] at hc
            | some rawsz =>
              dsimp only at hc
              rw [show format_qty specs rawsz symbol =
                    some (fmtQty spec rawsz) from by simp [format_qty, hlk]] at hc
              rw [show format_price specs (compute_targets side0 entry).2.1 symbol =
                    some (fmtPrice spec (compute_targets side0 entry).2.1) from by
                  simp [format_price, hlk]] at hc
              rw [show format_price specs (compute_targets side0 entry).2.2 symbol =
                    some (fmtPrice spec (compute_targets side0 entry).2.2) from by
                  simp [format_price, hlk]] at hc
              dsimp only at hc
              cases hfil : filterPositionOrders symbol (compute_targets side0 entry).1 aoo with
              | error e =>
                rw [hfil] at hc
                simp [okCalls] at hc
              | ok po =>
                rw [hfil] at hc
                dsimp only at hc
                cases hcl : classifyOrders po with
                | error e =>
                  rw [hcl] at hc
                  simp [okCalls] at hc
                | ok pr =>
                  obtain ⟨stps, lmts⟩ := pr
                  rw [hcl] at hc
                  dsimp only at hc
                  simp only [okCalls, List.mem_append] at hc
                  rcases hc with (hc | hc) | hc
                  · exact hcan symbol (keepIds stps.head? lmts.head?) po hc
                  · exact hstp spec.tick_size symbol (compute_targets side0 entry).1
                      (fmtQty spec rawsz) (fmtPrice spec (compute_targets side0 entry).2.1)
                      stps.head? hc
                  · exact hlmt spec.tick_size symbol (compute_targets side0 entry).1
                      (fmtQty spec rawsz) (fmtPrice spec (compute_targets side0 entry).2.2)
                      lmts.head? hc

/-- Unfolding of `processPosition` on a fully populated position that is
not excluded and whose symbol has an instrument spec. -/
theorem processPosition_eq (specs : List (String × InstrumentSpec))
    (aoo : List Order) (symbol side0 : String) (entry_price raw_size : ℚ)
    (spec : InstrumentSpec) (position_orders stps lmts : List Order)
    (hexc : isExcluded symbol = false)
    (hspec : lookupSpec specs symbol = some spec)
    (hfil : filterPositionOrders symbol (compute_targets side0 entry_price).1 aoo =
      Except.ok position_orders)
    (hcl : classifyOrders position_orders = Except.ok (stps, lmts)) :
    processPosition specs aoo
      { symbol := some symbol, side := some side0, price := some entry_price,
        size := some raw_size } =
      Except.ok
        (cancelCalls symbol (keepIds stps.head? lmts.head?) position_orders ++
         stopArmCalls spec.tick_size symbol (compute_targets side0 entry_price).1
           (fmtQty spec raw_size) (fmtPrice spec (compute_targets side0 entry_price).2.1)
           stps.head? ++
         limitArmCalls spec.tick_size symbol (compute_targets side0 entry_price).1
           (fmtQty spec raw_size) (fmtPrice spec (compute_targets side0 entry_price).2.2)
           lmts.head?) := by
  unfold processPosition
  dsimp only
  rw [hexc]
  simp only [Bool.false_eq_true, if_false]
  rw [hspec]
  dsimp only
  rw [show format_qty specs raw_size symbol = some (fmtQty spec raw_size) from by
    simp [format_qty, hspec]]
  rw [show format_price specs (compute_targets side0 entry_price).2.1 symbol =
      some (fmtPrice spec (compute_targets side0 entry_price).2.1) from by
    simp [format_price, hspec]]
  rw [show format_price specs (compute_targets side0 entry_price).2.2 symbol =
      some (fmtPrice spec (compute_targets side0 entry_price).2.2) from by
    simp [format_price, hspec]]
  dsimp only
  rw [hfil]
  dsimp only
  rw [hcl]

/-- The cleanup loop cancels nothing when every matching order carries a
kept id. -/
theorem cancelCalls_eq_nil (symbol : String) (keep : List (Option String))
    (po : List Order) (h : ∀ o ∈ po, getId o ∈ keep) :
    cancelCalls symbol keep po = [] := by
  unfold cancelCalls
  rw [List.filterMap_eq_nil_iff]
  intro o ho
  rw [if_pos (h o ho)]

/-- The stop arm is silent on a chosen order within tolerance. -/
theorem stopArm_eq_nil (tick : ℚ) (symbol action_side : String)
    (size target_stp : ℚ) (o : Order)
    (hp : |o.stopPrice.getD 0 - target_stp| ≤ tick * 2)
    (hs : o.size.getD 0 = size) :
    stopArmCalls tick symbol action_side size target_stp (some o) = [] := by
  have hcond : ¬(|o.stopPrice.getD 0 - target_stp| > tick * 2 ∨
      |o.size.getD 0 - size| > 0) := by
    rintro (h | h)
    · exact absurd h (not_lt.mpr hp)
    · rw [hs, sub_self, abs_zero] at h
      exact lt_irrefl 0 h
  rw [stopArm_some_eq, if_neg hcond]

/-- The limit arm is silent on a chosen order within tolerance. -/
theorem limitArm_eq_nil (tick : ℚ) (symbol action_side : String)
    (size target_lmt : ℚ) (o : Order)
    (hp : |o.limitPrice.getD 0 - target_lmt| ≤ tick * 2)
    (hs : o.size.getD 0 = size) :
    limitArmCalls tick symbol action_side size target_lmt (some o) = [] := by
  have hcond : ¬(|o.limitPrice.getD 0 - target_lmt| > tick * 2 ∨
      |o.size.getD 0 - size| > 0) := by
    rintro (h | h)
    · exact absurd h (not_lt.mpr hp)
    · rw [hs, sub_self, abs_zero] at h
      exact lt_irrefl 0 h
  rw [limitArm_some_eq, if_neg hcond]

/-- A cycle every position of which is silent issues no calls. -/
theorem runCycle_eq_nil (specs : List (String × InstrumentSpec)) (aoo : List Order) :
    ∀ positions : List Position,
      (∀ p ∈ positions, processPosition specs aoo p = Except.ok []) →
      runCycle specs aoo positions = []
  | [], _ => rfl
  | p :: rest, h => by
    have hp := h p (List.mem_cons_self p rest)
    conv_lhs => rw [runCycle]
    rw [hp]
    simpa using runCycle_eq_nil specs aoo rest
      (fun q hq => h q (List.mem_cons_of_mem p hq))

/-- Every call of the cleanup loop is a `"CANCEL"` call. -/
theorem cancelCalls_filter (symbol : String) (keep : List (Option String))
    (po : List Order) :
    (cancelCalls symbol keep po).filter (fun c => c.action == "CANCEL") =
      cancelCalls symbol keep po := by
  rw [List.filter_eq_self]
  intro c hc
  rw [mem_cancelCalls_action symbol keep po c hc]
  rfl

/-- The stop arm issues no `"CANCEL"` call. -/
theorem stopArm_filter_cancel (tick : ℚ) (symbol a : String) (sz tg : ℚ)
    (ch : Option Order) :
    (stopArmCalls tick symbol a sz tg ch).filter (fun c => c.action == "CANCEL") = [] := by
  cases ch with
  | none => rfl
  | some o =>
    rw [stopArm_some_eq]
    by_cases h : |o.stopPrice.getD 0 - tg| > tick * 2 ∨ |o.size.getD 0 - sz| > 0
    · rw [if_pos h]
      rfl
    · rw [if_neg h]
      rfl

/-- The limit arm issues no `"CANCEL"` call. -/
theorem limitArm_filter_cancel (tick : ℚ) (symbol a : String) (sz tg : ℚ)
    (ch : Option Order) :
    (limitArmCalls tick symbol a sz tg ch).filter (fun c => c.action == "CANCEL") = [] := by
  cases ch with
  | none => rfl
  | some o =>
    rw [limitArm_some_eq]
    by_cases h : |o.limitPrice.getD 0 - tg| > tick * 2 ∨ |o.size.getD 0 - sz| > 0
    · rw [if_pos h]
      rfl
    · rw [if_neg h]
      rfl

/-! ### Claim theorems -/

/-- C1: `compute_targets` is a pure function of side and entry price: a
lowercased side of long/buy yields closing side sell with
`raw_stop = entry × (1 − STOP_LOSS_PCT)` and
`raw_limit = entry × (1 + TAKE_PROFIT_PCT)`; short/sell yields closing side
buy with the offsets mirrored; and for a long position with entry 100 the
raw stop is 98.5, the raw limit 105.0, the action side sell. -/
theorem C1_compute_targets :
    (∀ (side : String) (entry_price : ℚ),
        sLower side = "long" ∨ sLower side = "buy" →
        compute_targets side entry_price =
          ("sell", entry_price * (1 - STOP_LOSS_PCT), entry_price * (1 + TAKE_PROFIT_PCT))) ∧
    (∀ (side : String) (entry_price : ℚ),
        sLower side = "short" ∨ sLower side = "sell" →
        compute_targets side entry_price =
          ("buy", entry_price * (1 + STOP_LOSS_PCT), entry_price * (1 - TAKE_PROFIT_PCT))) ∧
    compute_targets "long" 100 = ("sell", 98.5, 105.0) ∧
    STOP_LOSS_PCT = 0.015 ∧ TAKE_PROFIT_PCT = 0.05 := by
  refine ⟨?_, ?_, ?_, rfl, rfl⟩
  · intro side entry h
    unfold compute_targets
    rw [if_pos h]
  · intro side entry h
    have hne : ¬(sLower side = "long" ∨ sLower side = "buy") := by
      rcases h with h | h <;> rw [h] <;> decide
    unfold compute_targets
    rw [if_neg hne]
  · have h : sLower "long" = "long" := by decide
    unfold compute_targets
    rw [if_pos (Or.inl h)]
    norm_num [STOP_LOSS_PCT, TAKE_PROFIT_PCT]

/-- Witness for C1 at side `"Long"`, entry 100. -/
theorem C1_witness :
    (sLower "Long" = "long" ∨ sLower "Long" = "buy") ∧
    compute_targets "Long" 100 =
      ("sell", 100 * (1 - STOP_LOSS_PCT), 100 * (1 + TAKE_PROFIT_PCT)) := by
  have h : sLower "Long" = "long" := by decide
  exact ⟨Or.inl h, C1_compute_targets.1 "Long" 100 (Or.inl h)⟩

/-- C9: any side whose lowercased form is neither `"long"` nor `"buy"` —
not only `"short"`/`"sell"` — takes the short branch: action side `"buy"`,
raw stop above entry, raw limit below entry. -/
theorem C9_default_short (side : String) (entry_price : ℚ)
    (h1 : sLower side ≠ "long") (h2 : sLower side ≠ "buy") :
    compute_targets side entry_price =
      ("buy", entry_price * (1 + STOP_LOSS_PCT), entry_price * (1 - TAKE_PROFIT_PCT)) := by
  unfold compute_targets
  rw [if_neg ?_]
  rintro (h | h)
  · exact h1 h
  · exact h2 h

/-- Witness for C9 at the unrecognised side `"hodl"`. -/
theorem C9_witness :
    sLower "hodl" ≠ "long" ∧ sLower "hodl" ≠ "buy" ∧
    compute_targets "hodl" 200 =
      ("buy", 200 * (1 + STOP_LOSS_PCT), 200 * (1 - TAKE_PROFIT_PCT)) := by
  refine ⟨by decide, by decide, C9_default_short "hodl" 200 (by decide) (by decide)⟩

/-- C8: a position whose symbol is in the excluded set (case-insensitive
match) is skipped before any call is issued, whatever its other fields and
whatever the open-order state. -/
theorem C8_excluded_skip (specs : List (String × InstrumentSpec))
    (all_open_orders : List Order) (pos : Position) (symbol : String)
    (hsym : pos.symbol = some symbol)
    (hexc : isExcluded symbol = true) :
    processPosition specs all_open_orders pos = Except.ok [] := by
  unfold processPosition
  rw [hsym]
  simp [hexc]

/-- Witness for C8: an excluded symbol in lowercase, with live orders. -/
theorem C8_witness :
    ({ symbol := some "pf_xbtusd", side := some "long", price := some 100,
       size := some 1 } : Position).symbol = some "pf_xbtusd" ∧
    isExcluded "pf_xbtusd" = true ∧
    processPosition specsX [oStpX]
      { symbol := some "pf_xbtusd", side := some "long", price := some 100,
        size := some 1 } = Except.ok [] := by
  refine ⟨rfl, by decide, C8_excluded_skip specsX [oStpX] _ "pf_xbtusd" rfl (by decide)⟩

/-- C3: for a chosen existing stop (resp. limit) order, an amend call is
issued iff the absolute difference between the order's recorded price and
the formatted target price exceeds two tick sizes, or the recorded size
differs at all from the formatted position size; and every amend payload —
at arm level and across the whole of a position's processing — carries the
order identifier, the new price, and the new size together. -/
theorem C3_amend_iff :
    (∀ (tick : ℚ) (symbol action_side : String) (size target_stp : ℚ) (o : Order),
        (∃ c ∈ stopArmCalls tick symbol action_side size target_stp (some o),
            c.action = "EDIT") ↔
          (|o.stopPrice.getD 0 - target_stp| > tick * 2 ∨ o.size.getD 0 ≠ size)) ∧
    (∀ (tick : ℚ) (symbol action_side : String) (size target_lmt : ℚ) (o : Order),
        (∃ c ∈ limitArmCalls tick symbol action_side size target_lmt (some o),
            c.action = "EDIT") ↔
          (|o.limitPrice.getD 0 - target_lmt| > tick * 2 ∨ o.size.getD 0 ≠ size)) ∧
    (∀ (tick : ℚ) (symbol action_side : String) (size target_stp : ℚ)
        (chosen : Option Order) (c : Call),
        c ∈ stopArmCalls tick symbol action_side size target_stp chosen →
        c.action = "EDIT" →
        (∃ oid, c.payload.order_id = some oid) ∧
        c.payload.stopPrice = some target_stp ∧ c.payload.size = some size) ∧
    (∀ (tick : ℚ) (symbol action_side : String) (size target_lmt : ℚ)
        (chosen : Option Order) (c : Call),
        c ∈ limitArmCalls tick symbol action_side size target_lmt chosen →
        c.action = "EDIT" →
        (∃ oid, c.payload.order_id = some oid) ∧
        c.payload.limitPrice = some target_lmt ∧ c.payload.size = some size) ∧
    (∀ (specs : List (String × InstrumentSpec)) (aoo : List Order)
        (pos : Position) (c : Call),
        c ∈ okCalls (processPosition specs aoo pos) → c.action = "EDIT" →
        (∃ oid, c.payload.order_id = some oid) ∧ (∃ sz, c.payload.size = some sz) ∧
        ((∃ p, c.payload.stopPrice = some p) ∨ (∃ p, c.payload.limitPrice = some p))) := by
  refine ⟨stopArm_edit_iff, limitArm_edit_iff, stopArm_edit_payload,
    limitArm_edit_payload, ?_⟩
  intro specs aoo pos c hc he
  refine mem_processPosition_cases specs aoo pos c
    (fun c => (∃ oid, c.payload.order_id = some oid) ∧ (∃ sz, c.payload.size = some sz) ∧
      ((∃ p, c.payload.stopPrice = some p) ∨ (∃ p, c.payload.limitPrice = some p)))
    ?_ ?_ ?_ hc
  · intro s k po h
    have hact := mem_cancelCalls_action s k po c h
    rw [he] at hact
    exact absurd hact (by decide)
  · intro t s a sz tg ch h
    obtain ⟨hid, hsp, hszp⟩ := stopArm_edit_payload t s a sz tg ch c h he
    exact ⟨hid, ⟨sz, hszp⟩, Or.inl ⟨tg, hsp⟩⟩
  · intro t s a sz tg ch h
    obtain ⟨hid, hlp, hszp⟩ := limitArm_edit_payload t s a sz tg ch c h he
    exact ⟨hid, ⟨sz, hszp⟩, Or.inr ⟨tg, hlp⟩⟩

/-- Witness for C3: a stop order recorded at price 0 against target 10 with
tick 1 is amended, and the amend payload carries id, price and size. -/
theorem C3_witness :
    editW ∈ stopArmCalls 1 "S" "sell" 1 10 (some oW) ∧
    editW.action = "EDIT" ∧
    ((∃ oid, editW.payload.order_id = some oid) ∧
     editW.payload.stopPrice = some 10 ∧ editW.payload.size = some 1) := by
  have hid : getId oW = some "w" := by decide
  have hcond : |oW.stopPrice.getD 0 - (10 : ℚ)| > 1 * 2 ∨ |oW.size.getD 0 - 1| > 0 := by
    norm_num [oW]
  have hm : editW ∈ stopArmCalls 1 "S" "sell" 1 10 (some oW) := by
    rw [stopArm_some_eq, if_pos hcond, hid]
    exact List.mem_singleton_self _
  exact ⟨hm, rfl, C3_amend_iff.2.2.1 1 "S" "sell" 1 10 (some oW) editW hm rfl⟩

/-- C10: a chosen stop order lacking its `stopPrice` key (resp. a limit
order lacking `limitPrice`) or lacking its `size` key has the missing value
defaulted to 0 by `.get(..., 0)`, so the amend decision compares against 0 —
an amend is issued whenever the formatted target price is more than two tick
sizes away from 0 (resp. whenever the target size is nonzero) — instead of
the position being skipped or an error raised. -/
theorem C10_default_missing_fields :
    (∀ (tick : ℚ) (symbol action_side : String) (size target_stp : ℚ) (o : Order),
        o.stopPrice = none →
        ((∃ c ∈ stopArmCalls tick symbol action_side size target_stp (some o),
            c.action = "EDIT") ↔
          (|0 - target_stp| > tick * 2 ∨ o.size.getD 0 ≠ size))) ∧
    (∀ (tick : ℚ) (symbol action_side : String) (size target_stp : ℚ) (o : Order),
        o.size = none →
        ((∃ c ∈ stopArmCalls tick symbol action_side size target_stp (some o),
            c.action = "EDIT") ↔
          (|o.stopPrice.getD 0 - target_stp| > tick * 2 ∨ size ≠ 0))) ∧
    (∀ (tick : ℚ) (symbol action_side : String) (size target_lmt : ℚ) (o : Order),
        o.limitPrice = none →
        ((∃ c ∈ limitArmCalls tick symbol action_side size target_lmt (some o),
            c.action = "EDIT") ↔
          (|0 - target_lmt| > tick * 2 ∨ o.size.getD 0 ≠ size))) ∧
    (∀ (tick : ℚ) (symbol action_side : String) (size target_lmt : ℚ) (o : Order),
        o.size = none →
        ((∃ c ∈ limitArmCalls tick symbol action_side size target_lmt (some o),
            c.action = "EDIT") ↔
          (|o.limitPrice.getD 0 - target_lmt| > tick * 2 ∨ size ≠ 0))) := by
  refine ⟨?_, ?_, ?_, ?_⟩
  · intro tick symbol a size tg o h
    rw [stopArm_edit_iff, h]
    simp only [Option.getD_none]
  · intro tick symbol a size tg o h
    rw [stopArm_edit_iff, h]
    simp only [Option.getD_none]
    exact or_congr Iff.rfl ne_comm
  · intro tick symbol a size tg o h
    rw [limitArm_edit_iff, h]
    simp only [Option.getD_none]
  · intro tick symbol a size tg o h
    rw [limitArm_edit_iff, h]
    simp only [Option.getD_none]
    exact or_congr Iff.rfl ne_comm

/-- Witness for C10: a stop order with no `stopPrice` key against target 10
with tick 1. -/
theorem C10_witness :
    oM.stopPrice = none ∧
    ((∃ c ∈ stopArmCalls 1 "S" "sell" 1 10 (some oM), c.action = "EDIT") ↔
      (|0 - (10 : ℚ)| > 1 * 2 ∨ oM.size.getD 0 ≠ 1)) :=
  ⟨rfl, C10_default_missing_fields.1 1 "S" "sell" 1 10 oM rfl⟩

/-- C2 (amended): an uncaught exception while processing one position ends
the cycle — the remaining positions are not processed (the cycle-level
handler logs it); only the explicitly handled per-position conditions skip
just that position, e.g. a missing instrument spec, after which the loop
continues with the rest of the cycle. -/
theorem C2_amended :
    (∀ (specs : List (String × InstrumentSpec)) (all_open_orders : List Order)
        (p : Position) (rest : List Position),
        processPosition specs all_open_orders p = Except.error () →
        runCycle specs all_open_orders (p :: rest) = []) ∧
    (∀ (specs : List (String × InstrumentSpec)) (all_open_orders : List Order)
        (p : Position) (rest : List Position) (symbol : String),
        p.symbol = some symbol → isExcluded symbol = false →
        lookupSpec specs symbol = none →
        runCycle specs all_open_orders (p :: rest) =
          runCycle specs all_open_orders rest) := by
  constructor
  · intro specs aoo p rest h
    unfold runCycle
    rw [h]
  · intro specs aoo p rest symbol hsym hexc hspec
    have hp : processPosition specs aoo p = Except.ok [] := by
      unfold processPosition
      rw [hsym]
      simp [hexc, hspec]
    conv_lhs => rw [runCycle]
    rw [hp]
    simp

/-- Witness for C2 (amended): a cycle whose first position raises (missing
`side` key) issues nothing at all, and a position with no instrument spec is
skipped while the cycle continues. -/
theorem C2_amended_witness :
    processPosition specsX [] pBad = Except.error () ∧
    runCycle specsX [] [pBad, posX] = [] ∧
    runCycle [] [] [pBad, posX] = runCycle [] [] [posX] := by
  have hbad : processPosition specsX [] pBad = Except.error () := by
    have hexc : isExcluded "PF_ETHUSD" = false := by decide
    have hspec : lookupSpec specsX "PF_ETHUSD" = some spec1 := by
      simp [lookupSpec, specsX]
    unfold processPosition pBad
    simp [hexc, hspec]
  refine ⟨hbad, C2_amended.1 specsX [] pBad [posX] hbad, ?_⟩
  exact C2_amended.2 [] [] pBad [posX] "PF_ETHUSD" rfl (by decide) rfl

/-- C2 counterexample: the claim says an exception raised while processing
one position must not abort the rest of the cycle; but with a first position
whose `side` key is missing (so `pos['side']` raises) and a healthy second
position that alone would produce create calls, the cycle issues no call at
all — the second position is never processed. -/
theorem C2_counterexample :
    isOk (processPosition specsX [] pBad) = false ∧
    okCalls (processPosition specsX [] posX) ≠ [] ∧
    runCycle specsX [] [pBad, posX] = [] := by
  have hexc : isExcluded "PF_ETHUSD" = false := by decide
  have hspec : lookupSpec specsX "PF_ETHUSD" = some spec1 := by
    simp [lookupSpec, specsX]
  have hbad : processPosition specsX [] pBad = Except.error () := by
    unfold processPosition pBad
    simp [hexc, hspec]
  refine ⟨by rw [hbad]; rfl, ?_, by unfold runCycle; rw [hbad]⟩
  have hlong : sLower "long" = "long" := by decide
  unfold processPosition posX
  simp [hexc, hspec, compute_targets, hlong, format_qty, format_price,
    filterPositionOrders, classifyOrders, keepIds, cancelCalls,
    stopArmCalls, limitArmCalls, okCalls]

/-- C7 (amended): the run issues zero order-mutation calls on a state where,
for each position, the chosen stop and limit orders exist and already equal
the computed targets within tolerance (price within two ticks, size equal)
and no OTHER orders match the position's symbol and closing side — neither
bucket duplicates nor orders of any other type (the latter addition is
forced: a matching order outside the two buckets is cancelled on every run). -/
theorem C7_amended :
    (∀ (specs : List (String × InstrumentSpec)) (aoo : List Order)
        (symbol side0 : String) (entry_price raw_size : ℚ) (spec : InstrumentSpec)
        (position_orders : List Order) (ostp olmt : Order),
        isExcluded symbol = false →
        lookupSpec specs symbol = some spec →
        filterPositionOrders symbol (compute_targets side0 entry_price).1 aoo =
          Except.ok position_orders →
        classifyOrders position_orders = Except.ok ([ostp], [olmt]) →
        (∀ o ∈ position_orders, o = ostp ∨ o = olmt) →
        |ostp.stopPrice.getD 0 -
            fmtPrice spec (compute_targets side0 entry_price).2.1| ≤ spec.tick_size * 2 →
        ostp.size.getD 0 = fmtQty spec raw_size →
        |olmt.limitPrice.getD 0 -
            fmtPrice spec (compute_targets side0 entry_price).2.2| ≤ spec.tick_size * 2 →
        olmt.size.getD 0 = fmtQty spec raw_size →
        processPosition specs aoo
          { symbol := some symbol, side := some side0, price := some entry_price,
            size := some raw_size } = Except.ok []) ∧
    (∀ (specs : List (String × InstrumentSpec)) (aoo : List Order)
        (positions : List Position),
        (∀ p ∈ positions, processPosition specs aoo p = Except.ok []) →
        runCycle specs aoo positions = []) := by
  constructor
  · intro specs aoo symbol side0 entry raw spec po ostp olmt hexc hspec hfil hcl hsub
      hsp hss hlp hls
    rw [processPosition_eq specs aoo symbol side0 entry raw spec po [ostp] [olmt]
      hexc hspec hfil hcl]
    simp only [List.head?_cons]
    have hkeep : ∀ o ∈ po, getId o ∈ keepIds (some ostp) (some olmt) := by
      intro o ho
      rcases hsub o ho with rfl | rfl
      · simp [keepIds]
      · simp [keepIds]
    rw [cancelCalls_eq_nil symbol _ po hkeep,
      stopArm_eq_nil spec.tick_size symbol (compute_targets side0 entry).1
        (fmtQty spec raw) (fmtPrice spec (compute_targets side0 entry).2.1) ostp hsp hss,
      limitArm_eq_nil spec.tick_size symbol (compute_targets side0 entry).1
        (fmtQty spec raw) (fmtPrice spec (compute_targets side0 entry).2.2) olmt hlp hls]
    rfl
  · exact runCycle_eq_nil

/-- Witness for C7 (amended): a converged one-position state — a stop order
exactly at the formatted stop target and a limit order exactly at the
formatted limit target, no other matching orders — yields zero calls. -/
theorem C7_amended_witness :
    isExcluded "PF_ETHUSD" = false ∧
    lookupSpec specsX "PF_ETHUSD" = some spec1 ∧
    filterPositionOrders "PF_ETHUSD" (compute_targets "long" 100).1 [oStpX, oLmtX] =
      Except.ok [oStpX, oLmtX] ∧
    classifyOrders [oStpX, oLmtX] = Except.ok ([oStpX], [oLmtX]) ∧
    (∀ o ∈ [oStpX, oLmtX], o = oStpX ∨ o = oLmtX) ∧
    |oStpX.stopPrice.getD 0 -
        fmtPrice spec1 (compute_targets "long" 100).2.1| ≤ spec1.tick_size * 2 ∧
    oStpX.size.getD 0 = fmtQty spec1 1 ∧
    |oLmtX.limitPrice.getD 0 -
        fmtPrice spec1 (compute_targets "long" 100).2.2| ≤ spec1.tick_size * 2 ∧
    oLmtX.size.getD 0 = fmtQty spec1 1 ∧
    processPosition specsX [oStpX, oLmtX] posX = Except.ok [] := by
  have hlong : sLower "long" = "long" := by decide
  have hsell : sLower "sell" = "sell" := by decide
  have h1 : isExcluded "PF_ETHUSD" = false := by decide
  have h2 : lookupSpec specsX "PF_ETHUSD" = some spec1 := by
    simp [lookupSpec, specsX]
  have hside : (compute_targets "long" 100).1 = "sell" := by
    simp [compute_targets, hlong]
  have hstpraw : (compute_targets "long" 100).2.1 = 197/2 := by
    simp only [compute_targets, hlong]
    norm_num [STOP_LOSS_PCT]
  have hlmtraw : (compute_targets "long" 100).2.2 = 105 := by
    simp only [compute_targets, hlong]
    norm_num [TAKE_PROFIT_PCT]
  have hfmtstp : fmtPrice spec1 (197/2 : ℚ) = 197/2 := by
    norm_num [fmtPrice, spec1, roundToDecimals, pyRound]
  have hfmtlmt : fmtPrice spec1 (105 : ℚ) = 105 := by
    norm_num [fmtPrice, spec1, roundToDecimals, pyRound]
  have hfq : fmtQty spec1 (1 : ℚ) = 1 := by
    norm_num [fmtQty, spec1, roundToDecimals, pyRound]
  have h3 : filterPositionOrders "PF_ETHUSD" (compute_targets "long" 100).1
      [oStpX, oLmtX] = Except.ok [oStpX, oLmtX] := by
    rw [hside]
    simp [filterPositionOrders, oStpX, oLmtX, hsell]
  have h4 : classifyOrders [oStpX, oLmtX] = Except.ok ([oStpX], [oLmtX]) := by
    simp [classifyOrders, oStpX, oLmtX,
      show sLower "stp" = "stp" from by decide,
      show sLower "lmt" = "lmt" from by decide,
      show ("lmt" : String) ≠ "stp" from by decide,
      show ("lmt" : String) ≠ "stop" from by decide]
  have h5 : ∀ o ∈ [oStpX, oLmtX], o = oStpX ∨ o = oLmtX := by
    intro o ho
    simpa using ho
  have h6 : |oStpX.stopPrice.getD 0 -
      fmtPrice spec1 (compute_targets "long" 100).2.1| ≤ spec1.tick_size * 2 := by
    rw [hstpraw, hfmtstp]
    norm_num [oStpX, spec1]
  have h7 : oStpX.size.getD 0 = fmtQty spec1 1 := by
    rw [hfq]
    norm_num [oStpX]
  have h8 : |oLmtX.limitPrice.getD 0 -
      fmtPrice spec1 (compute_targets "long" 100).2.2| ≤ spec1.tick_size * 2 := by
    rw [hlmtraw, hfmtlmt]
    norm_num [oLmtX, spec1]
  have h9 : oLmtX.size.getD 0 = fmtQty spec1 1 := by
    rw [hfq]
    norm_num [oLmtX]
  exact ⟨h1, h2, h3, h4, h5, h6, h7, h8, h9,
    C7_amended.1 specsX [oStpX, oLmtX] "PF_ETHUSD" "long" 100 1 spec1
      [oStpX, oLmtX] oStpX oLmtX h1 h2 h3 h4 h5 h6 h7 h8 h9⟩

/-- C7 counterexample: a state with exactly one chosen stop order and one
chosen limit order, both already equal to the formatted targets (so "no
duplicate orders exist" and the chosen orders are within tolerance), plus
one matching order of type `"ioc"` — in neither bucket.  The claim predicts
zero calls, but the run issues a cancel for the `"ioc"` order on every run,
including a second run on unchanged state. -/
theorem C7_counterexample :
    filterPositionOrders "PF_ETHUSD" "sell" [oStpX, oLmtX, oIoc] =
      Except.ok [oStpX, oLmtX, oIoc] ∧
    classifyOrders [oStpX, oLmtX, oIoc] = Except.ok ([oStpX], [oLmtX]) ∧
    stopArmCalls spec1.tick_size "PF_ETHUSD" "sell" 1 (197/2) (some oStpX) = [] ∧
    limitArmCalls spec1.tick_size "PF_ETHUSD" "sell" 1 105 (some oLmtX) = [] ∧
    runCycle specsX [oStpX, oLmtX, oIoc] [posX] = [cancelCall "PF_ETHUSD" oIoc] := by
  have hlong : sLower "long" = "long" := by decide
  have hsell : sLower "sell" = "sell" := by decide
  have hside : (compute_targets "long" 100).1 = "sell" := by
    simp [compute_targets, hlong]
  have hstpraw : (compute_targets "long" 100).2.1 = 197/2 := by
    simp only [compute_targets, hlong]
    norm_num [STOP_LOSS_PCT]
  have hlmtraw : (compute_targets "long" 100).2.2 = 105 := by
    simp only [compute_targets, hlong]
    norm_num [TAKE_PROFIT_PCT]
  have hfmtstp : fmtPrice spec1 (197/2 : ℚ) = 197/2 := by
    norm_num [fmtPrice, spec1, roundToDecimals, pyRound]
  have hfmtlmt : fmtPrice spec1 (105 : ℚ) = 105 := by
    norm_num [fmtPrice, spec1, roundToDecimals, pyRound]
  have hfq : fmtQty spec1 (1 : ℚ) = 1 := by
    norm_num [fmtQty, spec1, roundToDecimals, pyRound]
  have h3 : filterPositionOrders "PF_ETHUSD" "sell" [oStpX, oLmtX, oIoc] =
      Except.ok [oStpX, oLmtX, oIoc] := by
    simp [filterPositionOrders, oStpX, oLmtX, oIoc, hsell]
  have h4 : classifyOrders [oStpX, oLmtX, oIoc] = Except.ok ([oStpX], [oLmtX]) := by
    simp [classifyOrders, oStpX, oLmtX, oIoc,
      show sLower "stp" = "stp" from by decide,
      show sLower "lmt" = "lmt" from by decide,
      show sLower "ioc" = "ioc" from by decide,
      show ("lmt" : String) ≠ "stp" from by decide,
      show ("lmt" : String) ≠ "stop" from by decide,
      show ("ioc" : String) ≠ "stp" from by decide,
      show ("ioc" : String) ≠ "stop" from by decide,
      show ("ioc" : String) ≠ "lmt" from by decide,
      show ("ioc" : String) ≠ "limit" from by decide]
  have h5 : stopArmCalls spec1.tick_size "PF_ETHUSD" "sell" 1 (197/2)
      (some oStpX) = [] := by
    refine stopArm_eq_nil _ _ _ _ _ _ ?_ ?_
    · norm_num [oStpX, spec1]
    · norm_num [oStpX]
  have h6 : limitArmCalls spec1.tick_size "PF_ETHUSD" "sell" 1 105
      (some oLmtX) = [] := by
    refine limitArm_eq_nil _ _ _ _ _ _ ?_ ?_
    · norm_num [oLmtX, spec1]
    · norm_num [oLmtX]
  have h2 : lookupSpec specsX "PF_ETHUSD" = some spec1 := by
    simp [lookupSpec, specsX]
  have hfil : filterPositionOrders "PF_ETHUSD" (compute_targets "long" 100).1
      [oStpX, oLmtX, oIoc] = Except.ok [oStpX, oLmtX, oIoc] := by
    rw [hside]
    exact h3
  have hproc : processPosition specsX [oStpX, oLmtX, oIoc] posX =
      Except.ok [cancelCall "PF_ETHUSD" oIoc] := by
    have hpos : posX =
        ⟨some "PF_ETHUSD", some "long", some (100 : ℚ), some (1 : ℚ)⟩ := rfl
    rw [hpos]
    rw [processPosition_eq specsX [oStpX, oLmtX, oIoc] "PF_ETHUSD" "long" 100 1 spec1
      [oStpX, oLmtX, oIoc] [oStpX] [oLmtX] (by decide) h2 hfil h4]
    simp only [List.head?_cons]
    have hcc : cancelCalls "PF_ETHUSD" (keepIds (some oStpX) (some oLmtX))
        [oStpX, oLmtX, oIoc] = [cancelCall "PF_ETHUSD" oIoc] := by
      simp [cancelCalls, keepIds, getId, oStpX, oLmtX, oIoc,
        show ("c" : String) ≠ "a" from by decide,
        show ("c" : String) ≠ "b" from by decide,
        show ("a" : String) ≠ "" from by decide,
        show ("b" : String) ≠ "" from by decide,
        show ("c" : String) ≠ "" from by decide]
    rw [hcc]
    rw [show fmtQty spec1 (1 : ℚ) = 1 from hfq]
    rw [show fmtPrice spec1 (compute_targets "long" 100).2.1 = 197/2 from by
      rw [hstpraw, hfmtstp]]
    rw [show fmtPrice spec1 (compute_targets "long" 100).2.2 = 105 from by
      rw [hlmtraw, hfmtlmt]]
    rw [hside, h5, h6]
    rfl
  have hrun : runCycle specsX [oStpX, oLmtX, oIoc] [posX] =
      [cancelCall "PF_ETHUSD" oIoc] := by
    conv_lhs => rw [runCycle]
    rw [hproc]
    simp [runCycle]
  exact ⟨h3, h4, h5, h6, hrun⟩

/-- C4 (amended): the first order of each bucket is kept as chosen, and a
cancel call is issued for exactly those matching orders whose id is not
among the chosen ids — INCLUDING matching orders whose type lies outside
both buckets (that inclusion is what the counterexample forces); given two
resting take-profit orders with distinct ids and no other matching orders,
exactly one is kept and one cancel is issued for the other. -/
theorem C4_amended :
    (∀ (specs : List (String × InstrumentSpec)) (aoo : List Order)
        (symbol side0 : String) (entry_price raw_size : ℚ) (spec : InstrumentSpec)
        (position_orders stps lmts : List Order),
        isExcluded symbol = false →
        lookupSpec specs symbol = some spec →
        filterPositionOrders symbol (compute_targets side0 entry_price).1 aoo =
          Except.ok position_orders →
        classifyOrders position_orders = Except.ok (stps, lmts) →
        (okCalls (processPosition specs aoo
            { symbol := some symbol, side := some side0, price := some entry_price,
              size := some raw_size })).filter (fun c => c.action == "CANCEL") =
          position_orders.filterMap (fun o =>
            if getId o ∈ keepIds stps.head? lmts.head? then none
            else some (cancelCall symbol o))) ∧
    (∀ (specs : List (String × InstrumentSpec)) (aoo : List Order)
        (symbol side0 : String) (entry_price raw_size : ℚ) (spec : InstrumentSpec)
        (o1 o2 : Order),
        isExcluded symbol = false →
        lookupSpec specs symbol = some spec →
        filterPositionOrders symbol (compute_targets side0 entry_price).1 aoo =
          Except.ok [o1, o2] →
        classifyOrders [o1, o2] = Except.ok ([], [o1, o2]) →
        getId o1 ≠ getId o2 →
        (okCalls (processPosition specs aoo
            { symbol := some symbol, side := some side0, price := some entry_price,
              size := some raw_size })).filter (fun c => c.action == "CANCEL") =
          [cancelCall symbol o2]) := by
  have hmain : ∀ (specs : List (String × InstrumentSpec)) (aoo : List Order)
      (symbol side0 : String) (entry_price raw_size : ℚ) (spec : InstrumentSpec)
      (position_orders stps lmts : List Order),
      isExcluded symbol = false →
      lookupSpec specs symbol = some spec →
      filterPositionOrders symbol (compute_targets side0 entry_price).1 aoo =
        Except.ok position_orders →
      classifyOrders position_orders = Except.ok (stps, lmts) →
      (okCalls (processPosition specs aoo
          { symbol := some symbol, side := some side0, price := some entry_price,
            size := some raw_size })).filter (fun c => c.action == "CANCEL") =
        position_orders.filterMap (fun o =>
          if getId o ∈ keepIds stps.head? lmts.head? then none
          else some (cancelCall symbol o)) := by
    intro specs aoo symbol side0 entry raw spec po stps lmts hexc hspec hfil hcl
    rw [processPosition_eq specs aoo symbol side0 entry raw spec po stps lmts
      hexc hspec hfil hcl]
    simp only [okCalls, List.filter_append, cancelCalls_filter,
      stopArm_filter_cancel, limitArm_filter_cancel, List.append_nil]
    rfl
  refine ⟨hmain, ?_⟩
  intro specs aoo symbol side0 entry raw spec o1 o2 hexc hspec hfil hcl hne
  rw [hmain specs aoo symbol side0 entry raw spec [o1, o2] [] [o1, o2]
    hexc hspec hfil hcl]
  simp [keepIds, hne.symm]

/-- Witness for C4 (amended): a position with two resting take-profit
orders (ids `"b"` and `"d"`) and nothing else: exactly one cancel call is
issued, for the second one. -/
theorem C4_amended_witness :
    isExcluded "PF_ETHUSD" = false ∧
    lookupSpec specsX "PF_ETHUSD" = some spec1 ∧
    filterPositionOrders "PF_ETHUSD" (compute_targets "long" 100).1 [oLmtX, oLmtY] =
      Except.ok [oLmtX, oLmtY] ∧
    classifyOrders [oLmtX, oLmtY] = Except.ok ([], [oLmtX, oLmtY]) ∧
    getId oLmtX ≠ getId oLmtY ∧
    (okCalls (processPosition specsX [oLmtX, oLmtY] posX)).filter
      (fun c => c.action == "CANCEL") = [cancelCall "PF_ETHUSD" oLmtY] := by
  have hlong : sLower "long" = "long" := by decide
  have hsell : sLower "sell" = "sell" := by decide
  have h1 : isExcluded "PF_ETHUSD" = false := by decide
  have h2 : lookupSpec specsX "PF_ETHUSD" = some spec1 := by
    simp [lookupSpec, specsX]
  have hside : (compute_targets "long" 100).1 = "sell" := by
    simp [compute_targets, hlong]
  have h3 : filterPositionOrders "PF_ETHUSD" (compute_targets "long" 100).1
      [oLmtX, oLmtY] = Except.ok [oLmtX, oLmtY] := by
    rw [hside]
    simp [filterPositionOrders, oLmtX, oLmtY, hsell]
  have h4 : classifyOrders [oLmtX, oLmtY] = Except.ok ([], [oLmtX, oLmtY]) := by
    simp [classifyOrders, oLmtX, oLmtY,
      show sLower "lmt" = "lmt" from by decide,
      show ("lmt" : String) ≠ "stp" from by decide,
      show ("lmt" : String) ≠ "stop" from by decide]
  have h5 : getId oLmtX ≠ getId oLmtY := by decide
  have hc : processPosition specsX [oLmtX, oLmtY] posX =
      processPosition specsX [oLmtX, oLmtY]
        { symbol := some "PF_ETHUSD", side := some "long",
          price := some (100 : ℚ), size := some (1 : ℚ) } := rfl
  refine ⟨h1, h2, h3, h4, h5, ?_⟩
  rw [hc]
  exact C4_amended.2 specsX [oLmtX, oLmtY] "PF_ETHUSD" "long" 100 1 spec1
    oLmtX oLmtY h1 h2 h3 h4 h5

/-- C4 counterexample: the claim says no order outside the stop and limit
buckets receives a cancel call; but a matching order of type `"ioc"` — in
neither bucket — does receive one. -/
theorem C4_counterexample :
    classifyOrders [oIoc] = Except.ok ([], []) ∧
    cancelCall "PF_ETHUSD" oIoc ∈ okCalls (processPosition specsX [oIoc] posX) := by
  have hlong : sLower "long" = "long" := by decide
  have hsell : sLower "sell" = "sell" := by decide
  have hside : (compute_targets "long" 100).1 = "sell" := by
    simp [compute_targets, hlong]
  have h2 : lookupSpec specsX "PF_ETHUSD" = some spec1 := by
    simp [lookupSpec, specsX]
  have h4 : classifyOrders [oIoc] = Except.ok ([], []) := by
    simp [classifyOrders, oIoc,
      show sLower "ioc" = "ioc" from by decide,
      show ("ioc" : String) ≠ "stp" from by decide,
      show ("ioc" : String) ≠ "stop" from by decide,
      show ("ioc" : String) ≠ "lmt" from by decide,
      show ("ioc" : String) ≠ "limit" from by decide]
  have hfil : filterPositionOrders "PF_ETHUSD" (compute_targets "long" 100).1
      [oIoc] = Except.ok [oIoc] := by
    rw [hside]
    simp [filterPositionOrders, oIoc, hsell]
  refine ⟨h4, ?_⟩
  have hpos : posX =
      ⟨some "PF_ETHUSD", some "long", some (100 : ℚ), some (1 : ℚ)⟩ := rfl
  rw [hpos]
  rw [processPosition_eq specsX [oIoc] "PF_ETHUSD" "long" 100 1 spec1
    [oIoc] [] [] (by decide) h2 hfil h4]
  simp only [okCalls, List.mem_append]
  left
  left
  simp [cancelCalls, keepIds, oIoc, getId]

/-- A successful run of the order-matching comprehension computes exactly
the filter by exact symbol equality and case-folded side equality. -/
theorem filterPositionOrders_ok (symbol action_side : String) :
    ∀ (orders result : List Order),
      filterPositionOrders symbol action_side orders = Except.ok result →
      result = orders.filter (fun o =>
        o.symbol == some symbol && o.side.map sLower == some action_side)
  | [], result, h => by
    unfold filterPositionOrders at h
    injection h with h
    rw [← h]
    rfl
  | o :: rest, result, h => by
    unfold filterPositionOrders at h
    cases hsym : o.symbol with
    | none =>
      rw [hsym] at h
      exact Except.noConfusion h
    | some osym =>
      rw [hsym] at h
      dsimp only at h
      by_cases heq : osym = symbol
      · rw [if_pos heq] at h
        cases hside : o.side with
        | none =>
          rw [hside] at h
          exact Except.noConfusion h
        | some oside =>
          rw [hside] at h
          dsimp only at h
          cases hrec : filterPositionOrders symbol action_side rest with
          | error e =>
            rw [hrec] at h
            exact Except.noConfusion h
          | ok l =>
            rw [hrec] at h
            dsimp only at h
            injection h with h
            have ih := filterPositionOrders_ok symbol action_side rest l hrec
            rw [← h, List.filter_cons]
            by_cases hact : sLower oside = action_side
            · have hpred : (o.symbol == some symbol &&
                  o.side.map sLower == some action_side) = true := by
                rw [hsym, hside]
                simp [heq, hact]
              rw [if_pos hact]
              simp [hpred, ih]
            · have hpred : (o.symbol == some symbol &&
                  o.side.map sLower == some action_side) = false := by
                rw [hsym, hside]
                simp [hact]
              rw [if_neg hact]
              simp [hpred, ih]
      · rw [if_neg heq] at h
        have ih := filterPositionOrders_ok symbol action_side rest result h
        have hpred : (o.symbol == some symbol &&
            o.side.map sLower == some action_side) = false := by
          rw [hsym]
          simp [heq]
        rw [List.filter_cons]
        simp [hpred]
        exact ih

/-- C5 (amended): the orders partitioned as belonging to a position are
exactly those whose `symbol` equals the position's symbol EXACTLY
(case-sensitively) and whose lowercased `side` equals the computed (already
lowercase) action side — the symbol comparison the source performs is
`o['symbol'] == symbol`, with no case folding. -/
theorem C5_amended (symbol action_side : String) (orders result : List Order)
    (h : filterPositionOrders symbol action_side orders = Except.ok result) :
    result = orders.filter (fun o =>
      o.symbol == some symbol && o.side.map sLower == some action_side) :=
  filterPositionOrders_ok symbol action_side orders result h

/-- Witness for C5 (amended): a mixed list where one order matches exactly
and one does not (its symbol differs in case). -/
theorem C5_amended_witness :
    filterPositionOrders "PF_ETHUSD" "sell" [oStpX, oCase] = Except.ok [oStpX] ∧
    [oStpX] = [oStpX, oCase].filter (fun o =>
      o.symbol == some "PF_ETHUSD" && o.side.map sLower == some "sell") := by
  have h : filterPositionOrders "PF_ETHUSD" "sell" [oStpX, oCase] =
      Except.ok [oStpX] := by
    simp [filterPositionOrders, oStpX, oCase,
      show sLower "sell" = "sell" from by decide,
      show ("pf_ethusd" : String) ≠ "PF_ETHUSD" from by decide]
  exact ⟨h, C5_amended "PF_ETHUSD" "sell" [oStpX, oCase] [oStpX] h⟩

/-- C5 counterexample: the claim says the symbol comparison is
case-insensitive; but an order whose symbol is `"pf_ethusd"` against a
position symbol `"PF_ETHUSD"` — equal up to case, and with a matching side —
is NOT placed in the partition. -/
theorem C5_counterexample :
    specOrderMatches "PF_ETHUSD" "sell" oCase = true ∧
    filterPositionOrders "PF_ETHUSD" "sell" [oCase] = Except.ok [] := by
  constructor
  · decide
  · simp [filterPositionOrders, oCase,
      show ("pf_ethusd" : String) ≠ "PF_ETHUSD" from by decide]

/-- With enough fuel, `stripZeros` yields a nonzero mantissa not divisible by
10, denoting the same decimal value. -/
theorem stripZeros_spec :
    ∀ (fuel : ℕ) (m e : ℤ), m ≠ 0 → m.natAbs ≤ fuel →
      (stripZeros fuel m e).1 ≠ 0 ∧ ¬(10 : ℤ) ∣ (stripZeros fuel m e).1 ∧
      ((stripZeros fuel m e).1 : ℚ) * 10 ^ (stripZeros fuel m e).2 =
        (m : ℚ) * 10 ^ e
  | 0, m, e, hm, hf => absurd (Int.natAbs_eq_zero.mp (Nat.le_zero.mp hf)) hm
  | fuel + 1, m, e, hm, hf => by
    simp only [stripZeros]
    by_cases h10 : m % 10 = 0
    · have hdvd : (10 : ℤ) ∣ m := Int.dvd_of_emod_eq_zero h10
      obtain ⟨q, hq⟩ := hdvd
      have hq0 : q ≠ 0 := by
        rintro rfl
        rw [mul_zero] at hq
        exact hm hq
      have hlt : q.natAbs < m.natAbs := by
        rw [hq, Int.natAbs_mul]
        have h1 : 1 ≤ q.natAbs := Int.natAbs_pos.mpr hq0
        norm_num
        omega
      have hle : q.natAbs ≤ fuel := by omega
      have hdiv : m / 10 = q := by
        rw [hq]
        exact Int.mul_ediv_cancel_left q (by norm_num)
      have ih := stripZeros_spec fuel q (e + 1) hq0 hle
      rw [if_pos h10, hdiv]
      refine ⟨ih.1, ih.2.1, ?_⟩
      rw [ih.2.2, hq]
      push_cast
      rw [zpow_add_one₀ (by norm_num : (10 : ℚ) ≠ 0)]
      ring
    · rw [if_neg h10]
      exact ⟨hm, fun hdvd => h10 (Int.emod_eq_zero_of_dvd hdvd), rfl⟩

/-- C6: `get_decimals_from_tick` returns `k` on every tick of the canonical
decimal form `1 × 10 ^ -k` (k ≥ 0), returns 0 on every whole-number tick,
and returns 2 on a parsing failure. -/
theorem C6_get_decimals :
    (∀ k : ℕ, get_decimals_from_tick (TickVal.num 1 (-(k : ℤ))) = k) ∧
    (∀ m e : ℤ, (∃ n : ℤ, (m : ℚ) * 10 ^ e = (n : ℚ)) →
        get_decimals_from_tick (TickVal.num m e) = 0) ∧
    get_decimals_from_tick TickVal.invalid = 2 := by
  refine ⟨?_, ?_, rfl⟩
  · intro k
    have hstrip : stripZeros (1 : ℤ).natAbs 1 (-(k : ℤ)) = (1, -(k : ℤ)) := by
      simp [stripZeros]
    have hne : normalizeExp 1 (-(k : ℤ)) = -(k : ℤ) := by
      unfold normalizeExp
      rw [if_neg (by norm_num : ¬(1 : ℤ) = 0), hstrip]
    simp only [get_decimals_from_tick]
    rw [hne]
    rcases Nat.eq_zero_or_pos k with hk | hk
    · subst hk
      norm_num
    · rw [if_pos (by omega : -(k : ℤ) < 0)]
      omega
  · rintro m e ⟨n, hn⟩
    by_cases hm : m = 0
    · subst hm
      simp only [get_decimals_from_tick]
      unfold normalizeExp
      norm_num
    · obtain ⟨h1, h2, h3⟩ := stripZeros_spec m.natAbs m e hm le_rfl
      have hnorm : normalizeExp m e = (stripZeros m.natAbs m e).2 := by
        unfold normalizeExp
        rw [if_neg hm]
      have hv : ((stripZeros m.natAbs m e).1 : ℚ) *
          10 ^ (stripZeros m.natAbs m e).2 = (n : ℚ) := h3.trans hn
      have hnotneg : ¬(stripZeros m.natAbs m e).2 < 0 := by
        intro hlt
        set p := stripZeros m.natAbs m e with hp
        have h0 : (10 : ℚ) ≠ 0 := by norm_num
        have key : (p.1 : ℚ) = (n : ℚ) * 10 ^ (-p.2) := by
          calc (p.1 : ℚ) = (p.1 : ℚ) * (10 ^ p.2 * 10 ^ (-p.2)) := by
                rw [← zpow_add₀ h0]
                simp
            _ = ((p.1 : ℚ) * 10 ^ p.2) * 10 ^ (-p.2) := by ring
            _ = (n : ℚ) * 10 ^ (-p.2) := by rw [hv]
        have hnn : -p.2 = ((-p.2).toNat : ℤ) := by omega
        rw [hnn, zpow_natCast] at key
        have hkey2 : p.1 = n * 10 ^ (-p.2).toNat := by exact_mod_cast key
        have hdvd : (10 : ℤ) ∣ p.1 := by
          rw [hkey2]
          exact ((dvd_pow_self 10 (by omega : (-p.2).toNat ≠ 0)).mul_left n)
        exact h2 hdvd
      simp only [get_decimals_from_tick]
      rw [hnorm, if_neg hnotneg]

/-- Witness for C6 at the whole-number tick `5.0`, whose `str()` parses as
`50 × 10 ^ -1`. -/
theorem C6_witness :
    (∃ n : ℤ, ((50 : ℤ) : ℚ) * 10 ^ (-1 : ℤ) = (n : ℚ)) ∧
    get_decimals_from_tick (TickVal.num 50 (-1)) = 0 := by
  have h : ∃ n : ℤ, ((50 : ℤ) : ℚ) * 10 ^ (-1 : ℤ) = (n : ℚ) := by
    refine ⟨5, ?_⟩
    rw [zpow_neg, zpow_one]
    norm_num
  exact ⟨h, C6_get_decimals.2.1 50 (-1) h⟩

end Armour
